import Mathlib

/-!
Verification of the CLAUDE.md timestamp updater.

The program under verification maintains a delimited timestamp banner in
markdown files.  File contents are modelled as `List Char`.  The regex
`START_MARKER .*? END_MARKER` (DOTALL) used by the updater is modelled by
`splitFirst` (leftmost occurrence of a literal), and Python's global
`re.sub` by the recursive `reSubWith`.  The system clock is modelled as an
injectable record of the formatted strings the source obtains from
`datetime.now()`.
-/

namespace ClaudeUpdater

/-- `startsWith pat l` is true when `pat` is a prefix of `l`
(Python `str.startswith`, used to model literal matching of the regex). -/
def startsWith : List Char → List Char → Bool
  | [], _ => true
  | _ :: _, [] => false
  | p :: ps, c :: cs => if p = c then startsWith ps cs else false

/-- `containsL pat l` is true when `pat` occurs as a contiguous substring of
`l` (Python's `pat in l`). -/
def containsL (pat : List Char) : List Char → Bool
  | [] => startsWith pat []
  | c :: r => startsWith pat (c :: r) || containsL pat r

/-- `splitFirst pat l` finds the leftmost occurrence of the (nonempty)
literal `pat` in `l`, returning the part before the occurrence and the part
after it. -/
def splitFirst (pat : List Char) : List Char → Option (List Char × List Char)
  | [] => none
  | c :: r =>
    if startsWith pat (c :: r) then some ([], (c :: r).drop pat.length)
    else
      match splitFirst pat r with
      | some pr => some (c :: pr.1, pr.2)
      | none => none

/-- Join a list of lines with newline separators (the shape of the banner
f-string in the source). -/
def joinNl : List (List Char) → List Char
  | [] => []
  | [l] => l
  | l :: l' :: ls => l ++ '\n' :: joinNl (l' :: ls)

/-- Split a character list at newline characters, used to talk about the
individual lines of the banner region. -/
def splitNl : List Char → List (List Char)
  | [] => [[]]
  | c :: r =>
    if c = '\n' then [] :: splitNl r
    else
      match splitNl r with
      | [] => [[c]]
      | h :: t => (c :: h) :: t

/-- Python whitespace characters stripped by `str.strip()`. -/
def isPySpace (c : Char) : Bool :=
  c = ' ' || c = '\t' || c = '\n' || c = '\r' || c = '\x0b' || c = '\x0c'

/-- Python `str.strip()`: remove whitespace from both ends. -/
def pyStrip (l : List Char) : List Char :=
  ((l.dropWhile isPySpace).reverse.dropWhile isPySpace).reverse

/-- The marker comment that opens the date section (source line 16). -/
def START_MARKER : List Char := "<!-- TIMESTAMP-START-DO-NOT-EDIT -->".data

/-- The marker comment that closes the date section (source line 17). -/
def END_MARKER : List Char := "<!-- TIMESTAMP-END-DO-NOT-EDIT -->".data

/-! ### Equation lemmas -/

theorem containsL_nil (pat : List Char) : containsL pat [] = startsWith pat [] := rfl

theorem containsL_cons (pat : List Char) (c : Char) (r : List Char) :
    containsL pat (c :: r) = (startsWith pat (c :: r) || containsL pat r) := rfl

theorem splitFirst_nil (pat : List Char) : splitFirst pat [] = none := rfl

theorem splitFirst_cons_pos {pat : List Char} {c : Char} {r : List Char}
    (hs : startsWith pat (c :: r) = true) :
    splitFirst pat (c :: r) = some ([], (c :: r).drop pat.length) := by
  simp [splitFirst, hs]

theorem splitFirst_cons_neg {pat : List Char} {c : Char} {r : List Char}
    (hs : startsWith pat (c :: r) = false) :
    splitFirst pat (c :: r) =
      (splitFirst pat r).map (fun pr => (c :: pr.1, pr.2)) := by
  simp only [splitFirst, hs, Bool.false_eq_true, if_false]
  cases splitFirst pat r <;> rfl

/-! ### Basic facts about `startsWith`, `containsL` and `splitFirst` -/

theorem startsWith_iff {pat l : List Char} :
    startsWith pat l = true ↔ ∃ t, l = pat ++ t := by
  induction pat generalizing l with
  | nil =>
    simp only [startsWith, List.nil_append, true_iff]
    exact ⟨l, rfl⟩
  | cons p ps ih =>
    cases l with
    | nil =>
      simp only [startsWith, Bool.false_eq_true, false_iff]
      rintro ⟨t, ht⟩
      exact List.cons_ne_nil _ _ ht.symm
    | cons c cs =>
      by_cases h : p = c
      · subst h
        rw [show startsWith (p :: ps) (p :: cs) = startsWith ps cs by
          simp [startsWith]]
        rw [ih]
        constructor
        · rintro ⟨t, rfl⟩; exact ⟨t, rfl⟩
        · rintro ⟨t, ht⟩
          injection ht with _ h2
          exact ⟨t, h2⟩
      · rw [show startsWith (p :: ps) (c :: cs) = false by simp [startsWith, h]]
        simp only [Bool.false_eq_true, false_iff]
        rintro ⟨t, ht⟩
        injection ht with h1 _
        exact h h1.symm

theorem startsWith_append_self (pat t : List Char) :
    startsWith pat (pat ++ t) = true :=
  startsWith_iff.mpr ⟨t, rfl⟩

theorem startsWith_head {pat l : List Char} (h : startsWith pat l = true)
    (hne : pat ≠ []) : l.head? = pat.head? := by
  rcases startsWith_iff.mp h with ⟨t, rfl⟩
  cases pat with
  | nil => exact absurd rfl hne
  | cons p ps => rfl

theorem startsWith_false_of_head_ne {pat : List Char} {d c : Char}
    {l : List Char} (hp : pat.head? = some d) (hne : c ≠ d) :
    startsWith pat (c :: l) = false := by
  cases hx : startsWith pat (c :: l) with
  | false => rfl
  | true =>
    have h1 := startsWith_head hx (by rintro rfl; simp at hp)
    rw [hp] at h1
    simp only [List.head?_cons, Option.some.injEq] at h1
    exact absurd h1 hne

theorem containsL_of_startsWith {pat l : List Char}
    (h : startsWith pat l = true) : containsL pat l = true := by
  cases l with
  | nil => exact h
  | cons c r => simp [containsL_cons, h]

theorem contains_of_occurs {pat u v l : List Char} (h : l = u ++ pat ++ v) :
    containsL pat l = true := by
  subst h
  induction u with
  | nil =>
    simp only [List.nil_append]
    exact containsL_of_startsWith (startsWith_append_self pat v)
  | cons c u ih =>
    rw [show ((c :: u : List Char) ++ pat ++ v) = c :: (u ++ pat ++ v) by simp]
    rw [containsL_cons, ih, Bool.or_true]

theorem occurs_of_contains {pat l : List Char} (h : containsL pat l = true) :
    ∃ u v, l = u ++ pat ++ v := by
  induction l with
  | nil =>
    rw [containsL_nil] at h
    rcases startsWith_iff.mp h with ⟨t, ht⟩
    exact ⟨[], t, by simpa using ht⟩
  | cons c r ih =>
    rw [containsL_cons, Bool.or_eq_true] at h
    rcases h with h | h
    · rcases startsWith_iff.mp h with ⟨t, ht⟩
      exact ⟨[], t, by simpa using ht⟩
    · rcases ih h with ⟨u, v, huv⟩
      exact ⟨c :: u, v, by simp [huv]⟩

theorem splitFirst_sound {pat l pre post : List Char}
    (h : splitFirst pat l = some (pre, post)) : l = pre ++ pat ++ post := by
  induction l generalizing pre post with
  | nil => rw [splitFirst_nil] at h; cases h
  | cons c r ih =>
    cases hs : startsWith pat (c :: r) with
    | true =>
      rw [splitFirst_cons_pos hs, Option.some.injEq, Prod.mk.injEq] at h
      rcases startsWith_iff.mp hs with ⟨t, ht⟩
      rcases h with ⟨h1, h2⟩
      subst h1
      rw [← h2, List.nil_append, ht, List.drop_left]
    | false =>
      rw [splitFirst_cons_neg hs] at h
      cases hsp : splitFirst pat r with
      | none => rw [hsp] at h; cases h
      | some pr =>
        rw [hsp] at h
        simp only [Option.map_some', Option.some.injEq, Prod.mk.injEq] at h
        rcases h with ⟨h1, h2⟩
        have hr := ih (show splitFirst pat r = some (pr.1, pr.2) by rw [hsp])
        rw [← h1, ← h2, hr]
        simp

theorem splitFirst_none_no_occ {pat l : List Char} (hne : pat ≠ [])
    (h : splitFirst pat l = none) : ¬∃ u v, l = u ++ pat ++ v := by
  induction l with
  | nil =>
    rintro ⟨u, v, huv⟩
    cases u with
    | nil =>
      simp only [List.nil_append] at huv
      exact hne (List.append_eq_nil.mp huv.symm).1
    | cons c u' => simp at huv
  | cons c r ih =>
    rintro ⟨u, v, huv⟩
    cases hs : startsWith pat (c :: r) with
    | true => rw [splitFirst_cons_pos hs] at h; cases h
    | false =>
      rw [splitFirst_cons_neg hs] at h
      cases hsp : splitFirst pat r with
      | some pr => rw [hsp] at h; cases h
      | none =>
        cases u with
        | nil =>
          simp only [List.nil_append] at huv
          rw [huv] at hs
          rw [startsWith_append_self pat v] at hs
          cases hs
        | cons c' u' =>
          have hr : r = u' ++ pat ++ v := by
            have : c :: r = c' :: (u' ++ pat ++ v) := by simpa using huv
            injection this with _ h2
          exact ih hsp ⟨u', v, hr⟩

theorem splitFirst_some_length {pat l : List Char} {pr : List Char × List Char}
    (h : splitFirst pat l = some pr) :
    pr.2.length + pat.length ≤ l.length := by
  obtain ⟨pre, post⟩ := pr
  have hsnd := splitFirst_sound h
  subst hsnd
  simp only [List.length_append]
  omega

theorem splitFirst_at_head {pat t : List Char} (hne : pat ≠ []) :
    splitFirst pat (pat ++ t) = some ([], t) := by
  cases pat with
  | nil => exact absurd rfl hne
  | cons p ps =>
    rw [show ((p :: ps : List Char) ++ t) = p :: (ps ++ t) by simp]
    rw [splitFirst_cons_pos (by
      rw [show (p :: (ps ++ t) : List Char) = (p :: ps) ++ t by simp]
      exact startsWith_append_self (p :: ps) t)]
    rw [show (p :: (ps ++ t) : List Char) = (p :: ps) ++ t by simp, List.drop_left]

/-- If no character of `m` equals the head character of `pat` then the
leftmost occurrence of `pat` in `m ++ pat ++ t` is at position `m.length`. -/
theorem splitFirst_clean_append {pat m t : List Char} {d : Char}
    (hp : pat.head? = some d) (hm : ∀ c ∈ m, c ≠ d) :
    splitFirst pat (m ++ pat ++ t) = some (m, t) := by
  have hne : pat ≠ [] := by rintro rfl; simp at hp
  induction m with
  | nil =>
    simp only [List.nil_append]
    exact splitFirst_at_head hne
  | cons e m' ih =>
    have he' : e ≠ d := hm e (by simp)
    have hsw : startsWith pat (e :: (m' ++ pat ++ t)) = false :=
      startsWith_false_of_head_ne hp he'
    rw [show ((e :: m' : List Char) ++ pat ++ t) = e :: (m' ++ pat ++ t) by simp]
    rw [splitFirst_cons_neg hsw, ih (fun c hc => hm c (by simp [hc]))]
    rfl

/-! ### The clock and the generated banner

`create_timestamp_section` in the source reads `datetime.now()` and embeds
seven formatted values in an f-string.  The clock is modelled as the record
of those formatted values (the spec itself asks for the clock to be treated
as an injectable dependency).  `year` is kept as a number because the source
computes `prev_year = now.year - 1`. -/

structure Clock where
  dateStr : List Char
  timeStr : List Char
  fullDate : List Char
  dayName : List Char
  year : Nat
  monthName : List Char
  lastUpdated : List Char

/-- `f"{current_year}"` in the source: decimal rendering of the year. -/
def yearStr (clk : Clock) : List Char := (Nat.repr clk.year).data

/-- `f"{prev_year}"` in the source, where `prev_year = now.year - 1`. -/
def prevYearStr (clk : Clock) : List Char := (Nat.repr (clk.year - 1)).data

/-- Banner line `- **TODAY IS: {day_name}, {full_date}**`. -/
def lineToday (clk : Clock) : List Char :=
  "- **TODAY IS: ".data ++ clk.dayName ++ ", ".data ++ clk.fullDate ++ "**".data

/-- Banner line `- **CURRENT DATE: {date_str}**`. -/
def lineDate (clk : Clock) : List Char :=
  "- **CURRENT DATE: ".data ++ clk.dateStr ++ "**".data

/-- Banner line `- **CURRENT TIME: {time_str}**`. -/
def lineTime (clk : Clock) : List Char :=
  "- **CURRENT TIME: ".data ++ clk.timeStr ++ "**".data

/-- Banner line `- **THE YEAR IS: {current_year}**`. -/
def lineYear (clk : Clock) : List Char :=
  "- **THE YEAR IS: ".data ++ yearStr clk ++ "**".data

/-- Banner line `- **IT IS NOT {prev_year}! IT IS {current_year}!**`. -/
def lineNot (clk : Clock) : List Char :=
  "- **IT IS NOT ".data ++ prevYearStr clk ++ "! IT IS ".data ++ yearStr clk
    ++ "!**".data

/-- Banner line `1. **ALWAYS use {current_year} when referencing current year**`. -/
def lineUse (clk : Clock) : List Char :=
  "1. **ALWAYS use ".data ++ yearStr clk ++ " when referencing current year**".data

/-- Banner line `2. **When using WebSearch, ALWAYS include "{current_year}"
in queries for recent content**`. -/
def lineWebSearch (clk : Clock) : List Char :=
  "2. **When using WebSearch, ALWAYS include \"".data ++ yearStr clk
    ++ "\" in queries for recent content**".data

/-- Banner line `3. **NEVER default to {prev_year} - that was last year**`. -/
def lineDefault (clk : Clock) : List Char :=
  "3. **NEVER default to ".data ++ prevYearStr clk
    ++ " - that was last year**".data

/-- Banner line `4. **If you think it's {prev_year}, YOU ARE WRONG - check
this header again**`. -/
def lineWrong (clk : Clock) : List Char :=
  "4. **If you think it\x27s ".data ++ prevYearStr clk
    ++ ", YOU ARE WRONG - check this header again**".data

/-- Banner line `- "The latest docs from {current_year}"`. -/
def lineDocs (clk : Clock) : List Char :=
  "- \"The latest docs from ".data ++ yearStr clk ++ "\"".data

/-- Banner line `- "Recent updates in {current_month} {current_year}"`. -/
def lineRecent (clk : Clock) : List Char :=
  "- \"Recent updates in ".data ++ clk.monthName ++ " ".data ++ yearStr clk
    ++ "\"".data

/-- Banner line `- "Current {current_year} best practices"`. -/
def lineCurrent (clk : Clock) : List Char :=
  "- \"Current ".data ++ yearStr clk ++ " best practices\"".data

/-- Banner line `Using {prev_year} for current events = TEMPORAL CONFUSION =
FAILURE`. -/
def lineViolation (clk : Clock) : List Char :=
  "Using ".data ++ prevYearStr clk
    ++ " for current events = TEMPORAL CONFUSION = FAILURE".data

/-- Banner line `**Last Updated: {now.strftime("%Y-%m-%d %H:%M:%S")}**`. -/
def lineLastUpdated (clk : Clock) : List Char :=
  "**Last Updated: ".data ++ clk.lastUpdated ++ "**".data

/-- The lines strictly between the two markers of the f-string of
`create_timestamp_section` (source lines 34-59), in order. -/
def bodyLines (clk : Clock) : List (List Char) :=
  [ "# 🚨 CRITICAL TEMPORAL AWARENESS UPDATE 🚨".data,
    [],
    "## MANDATORY DATE/TIME RECOGNITION - READ THIS FIRST!".data,
    [],
    "**CURRENT ACTUAL DATE AND TIME:**".data,
    lineToday clk,
    lineDate clk,
    lineTime clk,
    lineYear clk,
    lineNot clk,
    [],
    "### ENFORCEMENT PROTOCOL:".data,
    lineUse clk,
    lineWebSearch clk,
    lineDefault clk,
    lineWrong clk,
    [],
    "### Examples of CORRECT date usage:".data,
    lineDocs clk,
    lineRecent clk,
    lineCurrent clk,
    [],
    "### VIOLATION ALERT:".data,
    lineViolation clk,
    [],
    lineLastUpdated clk ]

/-- The lines of the f-string from the start marker to the end marker. -/
def coreLines (clk : Clock) : List (List Char) :=
  START_MARKER :: (bodyLines clk ++ [END_MARKER])

/-- All lines of the f-string of `create_timestamp_section`: a leading empty
line (the newline right after the opening `"""`), the marker-delimited
block, and a trailing empty line (the newline before the closing `"""`). -/
def bannerLines (clk : Clock) : List (List Char) :=
  [] :: (coreLines clk ++ [[]])

/-- `create_timestamp_section` (source lines 19-62): the banner text, as a
function of the injected clock. -/
def create_timestamp_section (clk : Clock) : List Char :=
  joinNl (bannerLines clk)

/-- The stripped banner `create_timestamp_section().strip()` used as the
regex replacement (source line 82). -/
def coreC (clk : Clock) : List Char := joinNl (coreLines clk)

/-- The characters strictly between the markers inside the banner. -/
def midE (clk : Clock) : List Char :=
  '\n' :: (joinNl (bodyLines clk) ++ ['\n'])

/-- A formatted value is clean when it contains neither the `<` that starts
both markers nor a newline.  Every value `strftime` can produce is clean. -/
def cleanStr (l : List Char) : Prop := '<' ∉ l ∧ '\n' ∉ l

instance (l : List Char) : Decidable (cleanStr l) := by
  unfold cleanStr; infer_instance

/-- A clock reading is good when all seven formatted fields and the two
rendered year numbers are clean.  Real `datetime.now()` readings always
satisfy this. -/
def goodClock (clk : Clock) : Prop :=
  cleanStr clk.dateStr ∧ cleanStr clk.timeStr ∧ cleanStr clk.fullDate ∧
  cleanStr clk.dayName ∧ cleanStr clk.monthName ∧ cleanStr clk.lastUpdated ∧
  cleanStr (yearStr clk) ∧ cleanStr (prevYearStr clk)

instance (clk : Clock) : Decidable (goodClock clk) := by
  unfold goodClock; infer_instance

/-! ### Structural lemmas about `joinNl`, `splitNl`, `pyStrip` -/

theorem joinNl_cons {l : List Char} {L : List (List Char)} (h : L ≠ []) :
    joinNl (l :: L) = l ++ '\n' :: joinNl L := by
  cases L with
  | nil => exact absurd rfl h
  | cons l' ls => rfl

theorem joinNl_append_single {L : List (List Char)} {x : List Char}
    (h : L ≠ []) : joinNl (L ++ [x]) = joinNl L ++ '\n' :: x := by
  induction L with
  | nil => exact absurd rfl h
  | cons l L ih =>
    cases L with
    | nil => rfl
    | cons l' ls =>
      rw [show ((l :: l' :: ls : List (List Char)) ++ [x]) =
        l :: ((l' :: ls) ++ [x]) by simp]
      rw [joinNl_cons (by simp), ih (by simp)]
      rw [show joinNl (l :: l' :: ls) = l ++ '\n' :: joinNl (l' :: ls) from rfl]
      simp

theorem mem_joinNl {c : Char} {L : List (List Char)} (h : c ∈ joinNl L) :
    c = '\n' ∨ ∃ l ∈ L, c ∈ l := by
  induction L with
  | nil => simp [joinNl] at h
  | cons l L ih =>
    cases L with
    | nil =>
      right
      exact ⟨l, by simp, h⟩
    | cons l' ls =>
      rw [joinNl_cons (by simp)] at h
      rcases List.mem_append.mp h with h | h
      · exact Or.inr ⟨l, by simp, h⟩
      · rcases List.mem_cons.mp h with h | h
        · exact Or.inl h
        · rcases ih h with h | ⟨l'', hl'', hc⟩
          · exact Or.inl h
          · exact Or.inr ⟨l'', by simp [hl''], hc⟩

theorem joinNl_infix {l : List Char} {L : List (List Char)} (h : l ∈ L) :
    ∃ u v, joinNl L = u ++ l ++ v := by
  induction L with
  | nil => simp at h
  | cons l₀ L ih =>
    cases L with
    | nil =>
      rcases List.mem_singleton.mp h with rfl
      exact ⟨[], [], by simp [joinNl]⟩
    | cons l' ls =>
      rcases List.mem_cons.mp h with rfl | h
      · exact ⟨[], '\n' :: joinNl (l' :: ls), by rw [joinNl_cons (by simp)]; simp⟩
      · rcases ih h with ⟨u, v, huv⟩
        refine ⟨l₀ ++ '\n' :: u, v, ?_⟩
        rw [joinNl_cons (by simp), huv]
        simp

theorem splitNl_ne_nil (l : List Char) : splitNl l ≠ [] := by
  cases l with
  | nil => simp [splitNl]
  | cons c r =>
    by_cases h : c = '\n'
    · simp [splitNl, h]
    · simp only [splitNl, if_neg h]
      cases splitNl r <;> simp

theorem splitNl_newline_cons (r : List Char) :
    splitNl ('\n' :: r) = [] :: splitNl r := by
  simp [splitNl]

theorem splitNl_no_newline {l : List Char} (h : '\n' ∉ l) :
    splitNl l = [l] := by
  induction l with
  | nil => rfl
  | cons c r ih =>
    have hc : c ≠ '\n' := fun hc => h (by simp [hc])
    have hr : '\n' ∉ r := fun hr => h (by simp [hr])
    simp only [splitNl, if_neg hc, ih hr]

theorem splitNl_append_newline {a b : List Char} (h : '\n' ∉ a) :
    splitNl (a ++ '\n' :: b) = a :: splitNl b := by
  induction a with
  | nil => simp [splitNl]
  | cons c a ih =>
    have hc : c ≠ '\n' := fun hc => h (by simp [hc])
    have ha : '\n' ∉ a := fun ha => h (by simp [ha])
    rw [show ((c :: a : List Char) ++ '\n' :: b) = c :: (a ++ '\n' :: b) by simp]
    simp only [splitNl, if_neg hc, ih ha]

theorem splitNl_joinNl {L : List (List Char)} (hne : L ≠ [])
    (h : ∀ l ∈ L, '\n' ∉ l) : splitNl (joinNl L) = L := by
  induction L with
  | nil => exact absurd rfl hne
  | cons l L ih =>
    cases L with
    | nil => exact splitNl_no_newline (h l (by simp))
    | cons l' ls =>
      rw [joinNl_cons (by simp),
        splitNl_append_newline (h l (by simp)),
        ih (by simp) (fun x hx => h x (by simp [hx]))]

theorem nmem_append {c : Char} {l₁ l₂ : List Char} (h₁ : c ∉ l₁)
    (h₂ : c ∉ l₂) : c ∉ l₁ ++ l₂ := by
  intro h
  rcases List.mem_append.mp h with h | h
  · exact h₁ h
  · exact h₂ h

theorem cleanStr_append {l₁ l₂ : List Char} (h₁ : cleanStr l₁)
    (h₂ : cleanStr l₂) : cleanStr (l₁ ++ l₂) :=
  ⟨nmem_append h₁.1 h₂.1, nmem_append h₁.2 h₂.2⟩

/-- Every line of the banner body is clean when the clock is good: the body
text itself contains no `<` and no newline, and the interpolated values are
clean by assumption. -/
theorem bodyLines_clean {clk : Clock} (hg : goodClock clk) :
    ∀ l ∈ bodyLines clk, cleanStr l := by
  obtain ⟨h1, h2, h3, h4, h5, h6, h7, h8⟩ := hg
  intro l hl
  simp only [bodyLines, List.mem_cons, List.not_mem_nil, or_false] at hl
  rcases hl with rfl | rfl | rfl | rfl | rfl | rfl | rfl | rfl | rfl | rfl |
    rfl | rfl | rfl | rfl | rfl | rfl | rfl | rfl | rfl | rfl | rfl | rfl |
    rfl | rfl | rfl | rfl
  · decide
  · decide
  · decide
  · decide
  · decide
  · exact cleanStr_append (cleanStr_append (cleanStr_append
      (cleanStr_append (by decide) h4) (by decide)) h3) (by decide)
  · exact cleanStr_append (cleanStr_append (by decide) h1) (by decide)
  · exact cleanStr_append (cleanStr_append (by decide) h2) (by decide)
  · exact cleanStr_append (cleanStr_append (by decide) h7) (by decide)
  · exact cleanStr_append (cleanStr_append (cleanStr_append
      (cleanStr_append (by decide) h8) (by decide)) h7) (by decide)
  · decide
  · decide
  · exact cleanStr_append (cleanStr_append (by decide) h7) (by decide)
  · exact cleanStr_append (cleanStr_append (by decide) h7) (by decide)
  · exact cleanStr_append (cleanStr_append (by decide) h8) (by decide)
  · exact cleanStr_append (cleanStr_append (by decide) h8) (by decide)
  · decide
  · decide
  · exact cleanStr_append (cleanStr_append (by decide) h7) (by decide)
  · exact cleanStr_append (cleanStr_append (cleanStr_append
      (cleanStr_append (by decide) h5) (by decide)) h7) (by decide)
  · exact cleanStr_append (cleanStr_append (by decide) h7) (by decide)
  · decide
  · decide
  · exact cleanStr_append (cleanStr_append (by decide) h8) (by decide)
  · decide
  · exact cleanStr_append (cleanStr_append (by decide) h6) (by decide)

theorem midE_no_lt {clk : Clock} (hg : goodClock clk) :
    ∀ c ∈ midE clk, c ≠ '<' := by
  intro c hc
  rintro rfl
  rcases List.mem_cons.mp hc with h | h
  · exact absurd h (by decide)
  · rcases List.mem_append.mp h with h | h
    · rcases mem_joinNl h with h | ⟨l, hl, hcl⟩
      · exact absurd h (by decide)
      · exact (bodyLines_clean hg l hl).1 hcl
    · exact absurd (List.mem_singleton.mp h) (by decide)

theorem banner_decomp (clk : Clock) :
    create_timestamp_section clk = '\n' :: (coreC clk ++ ['\n']) := by
  unfold create_timestamp_section bannerLines coreC
  rw [joinNl_cons (by simp [coreLines]), joinNl_append_single (by simp [coreLines])]
  simp

theorem coreC_decomp (clk : Clock) :
    coreC clk = START_MARKER ++ (midE clk ++ END_MARKER) := by
  unfold coreC coreLines midE
  rw [joinNl_cons (by simp [bodyLines]), joinNl_append_single (by simp [bodyLines])]
  simp

/-- `create_timestamp_section().strip()` removes exactly the leading and
trailing newline of the banner. -/
theorem pyStrip_banner (clk : Clock) :
    pyStrip (create_timestamp_section clk) = coreC clk := by
  obtain ⟨ct, hct⟩ : ∃ t, coreC clk = '<' :: t := by
    refine ⟨START_MARKER.drop 1 ++ (midE clk ++ END_MARKER), ?_⟩
    rw [coreC_decomp]
    rw [show START_MARKER = '<' :: START_MARKER.drop 1 by decide]
    rfl
  obtain ⟨cr, hcr⟩ : ∃ t, (coreC clk).reverse = '>' :: t := by
    refine ⟨(START_MARKER ++ (midE clk ++ END_MARKER.dropLast)).reverse, ?_⟩
    conv_lhs => rw [coreC_decomp,
      show END_MARKER = END_MARKER.dropLast ++ ['>'] by decide]
    simp
  unfold pyStrip
  rw [banner_decomp]
  rw [show List.dropWhile isPySpace ('\n' :: (coreC clk ++ ['\n'])) =
      List.dropWhile isPySpace (coreC clk ++ ['\n']) by
    simp [List.dropWhile_cons, isPySpace]]
  rw [show List.dropWhile isPySpace (coreC clk ++ ['\n']) = coreC clk ++ ['\n'] by
    rw [hct]
    rw [show (('<' :: ct : List Char) ++ ['\n']) = '<' :: (ct ++ ['\n']) by simp]
    simp [List.dropWhile_cons, isPySpace]]
  rw [show (coreC clk ++ ['\n'] : List Char).reverse = '\n' :: (coreC clk).reverse by
    simp]
  rw [show List.dropWhile isPySpace ('\n' :: (coreC clk).reverse) =
      List.dropWhile isPySpace ((coreC clk).reverse) by
    simp [List.dropWhile_cons, isPySpace]]
  rw [hcr]
  rw [show List.dropWhile isPySpace ('>' :: cr) = '>' :: cr by
    simp [List.dropWhile_cons, isPySpace]]
  rw [← hcr, List.reverse_reverse]

/-! ### The global regex substitution -/

/-- Python global `re.sub` with the non-greedy pattern
`START_MARKER .*? END_MARKER` (DOTALL) and replacement `repl` (source lines
78-82): scan left to right; at a position where `START_MARKER` matches and
a later `END_MARKER` occurrence exists, the lazy `.*?` ends the match at
the first such occurrence, the match is replaced, and scanning resumes
after it; otherwise scanning advances one character. -/
def reSubWith (repl : List Char) : List Char → List Char
  | [] => []
  | c :: rest =>
    if startsWith START_MARKER (c :: rest) then
      match hm : splitFirst END_MARKER ((c :: rest).drop START_MARKER.length) with
      | some pr => repl ++ reSubWith repl pr.2
      | none => c :: reSubWith repl rest
    else c :: reSubWith repl rest
termination_by l => l.length
decreasing_by
  · have h1 := splitFirst_some_length hm
    have h3 : (1:Nat) ≤ END_MARKER.length := by decide
    have h4 : (1:Nat) ≤ START_MARKER.length := by decide
    simp only [List.length_drop, List.length_cons] at h1 ⊢
    omega
  · simp only [List.length_cons]; omega
  · simp only [List.length_cons]; omega

theorem reSubWith_nil (repl : List Char) : reSubWith repl [] = [] := by
  simp [reSubWith]

theorem reSubWith_skip {c : Char} {rest : List Char} (repl : List Char)
    (h : startsWith START_MARKER (c :: rest) = false) :
    reSubWith repl (c :: rest) = c :: reSubWith repl rest := by
  rw [reSubWith, if_neg (by simp [h])]

theorem reSubWith_noEnd {c : Char} {rest : List Char} (repl : List Char)
    (h : startsWith START_MARKER (c :: rest) = true)
    (hn : splitFirst END_MARKER ((c :: rest).drop START_MARKER.length) = none) :
    reSubWith repl (c :: rest) = c :: reSubWith repl rest := by
  rw [reSubWith, if_pos h]
  split
  · rename_i pr heq
    rw [hn] at heq
    cases heq
  · rfl

theorem reSubWith_match {s pre post : List Char} (repl : List Char)
    (h : startsWith START_MARKER s = true)
    (hs : splitFirst END_MARKER (s.drop START_MARKER.length) = some (pre, post)) :
    reSubWith repl s = repl ++ reSubWith repl post := by
  cases s with
  | nil => rw [show startsWith START_MARKER [] = false by decide] at h; cases h
  | cons c rest =>
    rw [reSubWith, if_pos h]
    split
    · rename_i pr heq
      rw [hs] at heq
      injection heq with heq'
      subst heq'
      rfl
    · rename_i heq
      rw [hs] at heq
      cases heq

/-- A string has a regex match when some start marker occurrence is
followed (anywhere later) by an end marker occurrence. -/
def hasMatch (s : List Char) : Prop :=
  ∃ a m b, s = a ++ START_MARKER ++ m ++ END_MARKER ++ b

theorem hasMatch_cons {c : Char} {r : List Char} (h : hasMatch r) :
    hasMatch (c :: r) := by
  obtain ⟨a, m, b, hr⟩ := h
  exact ⟨c :: a, m, b, by simp [hr]⟩

/-- Substitution leaves a string without any match unchanged. -/
theorem reSub_eq_self {repl s : List Char} (h : ¬ hasMatch s) :
    reSubWith repl s = s := by
  induction s with
  | nil => exact reSubWith_nil repl
  | cons c r ih =>
    cases hS : startsWith START_MARKER (c :: r) with
    | false =>
      rw [reSubWith_skip repl hS, ih (fun hr => h (hasMatch_cons hr))]
    | true =>
      cases hsp : splitFirst END_MARKER ((c :: r).drop START_MARKER.length) with
      | none =>
        rw [reSubWith_noEnd repl hS hsp, ih (fun hr => h (hasMatch_cons hr))]
      | some pr =>
        exfalso
        obtain ⟨pre, post⟩ := pr
        rcases startsWith_iff.mp hS with ⟨t, ht⟩
        have hdrop : (c :: r).drop START_MARKER.length = t := by
          rw [ht, List.drop_left]
        rw [hdrop] at hsp
        have hsplit := splitFirst_sound hsp
        exact h ⟨[], pre, post, by rw [ht, hsplit]; simp⟩

/-- Substitution on a string that begins with the replacement block itself
replaces that block by itself and continues behind it. -/
theorem reSub_repl_self {repl m : List Char}
    (hrepl : repl = START_MARKER ++ (m ++ END_MARKER))
    (hm : ∀ c ∈ m, c ≠ '<') (t : List Char) :
    reSubWith repl (repl ++ t) = repl ++ reSubWith repl t := by
  have hsw : startsWith START_MARKER (repl ++ t) = true := by
    rw [hrepl, List.append_assoc]
    exact startsWith_append_self _ _
  have hdrop : (repl ++ t).drop START_MARKER.length = m ++ END_MARKER ++ t := by
    rw [hrepl, List.append_assoc, List.drop_left]
  have hsp : splitFirst END_MARKER ((repl ++ t).drop START_MARKER.length)
      = some (m, t) := by
    rw [hdrop]
    exact splitFirst_clean_append (by decide) hm
  exact reSubWith_match repl hsw hsp

/-- The output of substitution either equals the input, or has the shape
`a ++ repl ++ rest` where `a` is a prefix of the input. -/
theorem reSub_structure (repl : List Char) (s : List Char) :
    reSubWith repl s = s ∨
    ∃ a rest t, s = a ++ t ∧ reSubWith repl s = a ++ (repl ++ rest) := by
  induction s with
  | nil => left; exact reSubWith_nil repl
  | cons c r ih =>
    cases hS : startsWith START_MARKER (c :: r) with
    | true =>
      cases hsp : splitFirst END_MARKER ((c :: r).drop START_MARKER.length) with
      | some pr =>
        right
        obtain ⟨pre, post⟩ := pr
        refine ⟨[], reSubWith repl post, c :: r, by simp, ?_⟩
        rw [reSubWith_match repl hS hsp]
        simp
      | none =>
        rw [reSubWith_noEnd repl hS hsp]
        rcases ih with h | ⟨a, rest, t, ht, hr⟩
        · left; rw [h]
        · right
          exact ⟨c :: a, rest, t, by simp [ht], by simp [hr]⟩
    | false =>
      rw [reSubWith_skip repl hS]
      rcases ih with h | ⟨a, rest, t, ht, hr⟩
      · left; rw [h]
      · right
        exact ⟨c :: a, rest, t, by simp [ht], by simp [hr]⟩

/-- If the scanner found no start-marker match at the head of `c :: (a ++ t)`,
then rewriting the tail behind the prefix `a` to `repl ++ rest` cannot create
one: the replacement starts with `<`, which occurs in `START_MARKER` only at
its first position. -/
theorem no_new_match_head {repl m a t rest : List Char} {c : Char}
    (hrepl : repl = START_MARKER ++ (m ++ END_MARKER))
    (hS : startsWith START_MARKER (c :: (a ++ t)) = false) :
    startsWith START_MARKER (c :: (a ++ (repl ++ rest))) = false := by
  cases hx : startsWith START_MARKER (c :: (a ++ (repl ++ rest))) with
  | false => rfl
  | true =>
    exfalso
    rcases startsWith_iff.mp hx with ⟨tt, htt⟩
    have hpre1 : START_MARKER <+: (c :: (a ++ (repl ++ rest))) := ⟨tt, htt.symm⟩
    have hpre2 : (c :: a) <+: (c :: (a ++ (repl ++ rest))) :=
      ⟨repl ++ rest, by simp⟩
    by_cases hlen : START_MARKER.length ≤ (c :: a).length
    · have hp1 : START_MARKER <+: (c :: a) :=
        List.prefix_of_prefix_length_le hpre1 hpre2 hlen
      rcases hp1 with ⟨z, hz⟩
      have hcontra : startsWith START_MARKER (c :: (a ++ t)) = true := by
        apply startsWith_iff.mpr
        refine ⟨z ++ t, ?_⟩
        rw [show (c :: (a ++ t) : List Char) = (c :: a) ++ t by simp, ← hz]
        simp
      rw [hcontra] at hS
      cases hS
    · push_neg at hlen
      have hp1 : (c :: a) <+: START_MARKER :=
        List.prefix_of_prefix_length_le hpre2 hpre1 (Nat.le_of_lt hlen)
      rcases hp1 with ⟨z, hz⟩
      have hzne : z ≠ [] := by
        intro hznil
        rw [hznil, List.append_nil] at hz
        have hlz := congrArg List.length hz
        simp only [List.length_cons] at hlz hlen
        omega
      have heq2 : repl ++ rest = z ++ tt := by
        have h0 : (c :: a) ++ (repl ++ rest) = ((c :: a) ++ z) ++ tt := by
          rw [hz]
          rw [show ((c :: a : List Char) ++ (repl ++ rest)) =
            c :: (a ++ (repl ++ rest)) by simp]
          exact htt
        rw [List.append_assoc] at h0
        exact List.append_cancel_left h0
      obtain ⟨w, hw⟩ : ∃ w, START_MARKER = '<' :: w :=
        ⟨START_MARKER.drop 1, by decide⟩
      have hhead : (repl ++ rest).head? = some '<' := by
        rw [hrepl, hw]
        rfl
      cases z with
      | nil => exact hzne rfl
      | cons z0 zs =>
        have hz0 : z0 = '<' := by
          rw [heq2] at hhead
          simp only [List.cons_append, List.head?_cons, Option.some.injEq] at hhead
          exact hhead
        have hzdrop : z0 :: zs = START_MARKER.drop (c :: a).length := by
          rw [← hz]
          rw [show (c :: a ++ z0 :: zs : List Char) = (c :: a) ++ z0 :: zs by simp]
          rw [List.drop_left]
        have hmem : z0 ∈ START_MARKER.drop 1 := by
          have h1 : z0 ∈ START_MARKER.drop (c :: a).length := by
            rw [← hzdrop]; simp
          have h2 : START_MARKER.drop (c :: a).length
              = (START_MARKER.drop 1).drop ((c :: a).length - 1) := by
            rw [List.drop_drop]
            congr 1
            simp only [List.length_cons]
            omega
          rw [h2] at h1
          exact List.drop_subset _ _ h1
        rw [hz0] at hmem
        exact absurd hmem (by decide)

/-- Substitution is idempotent: auxiliary version with an explicit length
bound for the induction. -/
theorem reSub_idem_aux {repl m : List Char}
    (hrepl : repl = START_MARKER ++ (m ++ END_MARKER))
    (hm : ∀ c ∈ m, c ≠ '<') :
    ∀ n s, s.length ≤ n →
      reSubWith repl (reSubWith repl s) = reSubWith repl s := by
  intro n
  induction n with
  | zero =>
    intro s hs
    have hnil : s = [] := List.eq_nil_of_length_eq_zero (Nat.le_zero.mp hs)
    subst hnil
    rw [reSubWith_nil, reSubWith_nil]
  | succ n ih =>
    intro s hs
    cases s with
    | nil => rw [reSubWith_nil, reSubWith_nil]
    | cons c r =>
      cases hS : startsWith START_MARKER (c :: r) with
      | true =>
        cases hsp : splitFirst END_MARKER ((c :: r).drop START_MARKER.length) with
        | some pr =>
          obtain ⟨pre, post⟩ := pr
          rw [reSubWith_match repl hS hsp]
          rw [reSub_repl_self hrepl hm (reSubWith repl post)]
          have hlen : post.length ≤ n := by
            have h1 := splitFirst_some_length hsp
            have h3 : (1:Nat) ≤ END_MARKER.length := by decide
            have h4 : (1:Nat) ≤ START_MARKER.length := by decide
            simp only [List.length_drop, List.length_cons] at h1
            simp only [List.length_cons] at hs
            omega
          rw [ih post hlen]
        | none =>
          have hns : reSubWith repl (c :: r) = c :: r := by
            apply reSub_eq_self
            rintro ⟨a, mm, b, habs⟩
            have hEne : (END_MARKER : List Char) ≠ [] := by decide
            apply splitFirst_none_no_occ hEne hsp
            refine ⟨(a ++ START_MARKER ++ mm).drop START_MARKER.length, b, ?_⟩
            have hge : START_MARKER.length ≤ (a ++ START_MARKER ++ mm).length := by
              simp only [List.length_append]
              omega
            have h5 : (a ++ START_MARKER ++ mm ++ END_MARKER ++ b : List Char)
                = (a ++ START_MARKER ++ mm) ++ (END_MARKER ++ b) := by simp
            rw [habs, h5, List.drop_append_eq_append_drop,
              Nat.sub_eq_zero_of_le hge, List.drop_zero]
            simp
          rw [hns]
          exact hns
      | false =>
        rw [reSubWith_skip repl hS]
        have hrlen : r.length ≤ n := by
          simp only [List.length_cons] at hs
          omega
        rcases reSub_structure repl r with hid | ⟨a, rest, t, ht, hres⟩
        · rw [hid, reSubWith_skip repl hS, hid]
        · rw [hres]
          have hS2 : startsWith START_MARKER (c :: (a ++ (repl ++ rest)))
              = false := by
            apply no_new_match_head hrepl (t := t)
            rw [← ht]
            exact hS
          rw [reSubWith_skip repl hS2, ← hres, ih r hrlen]

/-- Python's global substitution with the banner replacement is idempotent. -/
theorem reSub_idem {repl m : List Char}
    (hrepl : repl = START_MARKER ++ (m ++ END_MARKER))
    (hm : ∀ c ∈ m, c ≠ '<') (s : List Char) :
    reSubWith repl (reSubWith repl s) = reSubWith repl s :=
  reSub_idem_aux hrepl hm s.length s le_rfl

/-! ### The updater, the locator and the entry point -/

/-- The content transformation of `update_claude_md` (source lines 76-85):
when both markers are present, globally substitute the pattern by the
stripped fresh banner; otherwise prepend the banner followed by a blank
line. -/
def updateContent (clk : Clock) (content : List Char) : List Char :=
  if containsL START_MARKER content && containsL END_MARKER content then
    reSubWith (pyStrip (create_timestamp_section clk)) content
  else
    create_timestamp_section clk ++ '\n' :: content

/-- The on-disk state handled by one update: the target file's content and
the optional backup copy. -/
structure Disk where
  file : List Char
  backup : Option (List Char)

/-- Failure injection for `update_claude_md`: `ok` for a run without
errors, `failRead` for an exception while reading, `failWrite k` for an
exception after `k` characters of the new content were written (the
`open(filepath, 'w')` has already truncated the file). -/
inductive FailPoint
  | ok
  | failRead
  | failWrite (written : Nat)
deriving DecidableEq

/-- `shutil.move(backup_path, filepath)` in the except-branch (source lines
98-99): restore the file from the backup when it exists. -/
def doRestore (d : Disk) : Disk :=
  match d.backup with
  | some b => ⟨b, none⟩
  | none => d

/-- `update_claude_md` (source lines 64-100): create the backup, read the
content, transform it, write it back and remove the backup; on an exception
restore the original from the backup and report failure.  Returns the
success flag together with the resulting disk state. -/
def update_claude_md (clk : Clock) (fp : FailPoint) (d : Disk) : Bool × Disk :=
  let d1 : Disk := ⟨d.file, some d.file⟩
  match fp with
  | .ok => (true, ⟨updateContent clk d1.file, none⟩)
  | .failRead => (false, doRestore d1)
  | .failWrite k =>
    (false, doRestore ⟨(updateContent clk d1.file).take k, d1.backup⟩)

/-- The region strictly between the first start marker and the nearest
following end marker, when both exist. -/
def regionOf (l : List Char) : Option (List Char) :=
  match splitFirst START_MARKER l with
  | none => none
  | some pr =>
    match splitFirst END_MARKER pr.2 with
    | none => none
    | some qr => some qr.1

/-- A path below the searched root, as its list of name segments. -/
abbrev FsPath := List (List Char)

/-- Join path segments with a separator (`str(file_path)`). -/
def joinSep (sep : Char) : List (List Char) → List Char
  | [] => []
  | [l] => l
  | l :: l' :: ls => l ++ sep :: joinSep sep (l' :: ls)

/-- The string form of a path. -/
def pathStr (p : FsPath) : List Char := joinSep '/' p

/-- `root_path.rglob(pattern)` for a literal file-name pattern: the files
at any depth whose final segment equals the pattern. -/
def rglobFiles (files : List FsPath) (pattern : List Char) : List FsPath :=
  files.filter (fun p => decide (p.getLast? = some pattern))

/-- `find_all_claude_md_files` (source lines 102-120), over the list of all
files below the root: for each of the two name patterns, keep the matches
whose path string contains neither `.backup` nor `.trash`. -/
def find_all_claude_md_files (files : List FsPath) : List FsPath :=
  (rglobFiles files "CLAUDE.md".data).filter
      (fun p => !containsL ".backup".data (pathStr p)
        && !containsL ".trash".data (pathStr p))
    ++ (rglobFiles files "claude.md".data).filter
      (fun p => !containsL ".backup".data (pathStr p)
        && !containsL ".trash".data (pathStr p))

/-- `main` (source lines 122-194), modelled on the decisions that determine
the exit code: the optional `--file` argument paired with whether that file
exists, the files below the search root, and the per-file update outcome.
Returns the process exit code. -/
def main (fileArg : Option (FsPath × Bool)) (files : List FsPath)
    (updOk : FsPath → Bool) : Nat :=
  match fileArg with
  | some (p, present) =>
    if !present then 1
    else if updOk p then 0 else 1
  | none =>
    let claude_files := find_all_claude_md_files files
    if claude_files.isEmpty then 0
    else 0

/-- A concrete clock reading used by the witnesses: 2026-10-12, 14:30:45. -/
def clk0 : Clock :=
  ⟨"2026-10-12".data, "14:30:45 ".data, "October 12, 2026".data,
   "Sunday".data, 2026, "October".data, "2026-10-12 14:30:45".data⟩

/-! ### Claim C2: restore from backup on failure -/

/-- C2: for every file and every failure occurring after backup creation
but before the new content is fully written, `update_claude_md` restores
the file from the backup and reports failure, so the file content after the
failed run equals its content before the run. -/
theorem c2_restore_on_failure (clk : Clock) (d : Disk) (fp : FailPoint)
    (h : fp ≠ FailPoint.ok) :
    (update_claude_md clk fp d).1 = false ∧
    (update_claude_md clk fp d).2.file = d.file := by
  cases fp with
  | ok => exact absurd rfl h
  | failRead => exact ⟨rfl, rfl⟩
  | failWrite k => exact ⟨rfl, rfl⟩

/-- Witness for C2: a concrete mid-write failure on a concrete file. -/
theorem c2_restore_on_failure_witness :
    FailPoint.failWrite 3 ≠ FailPoint.ok ∧
    ((update_claude_md clk0 (FailPoint.failWrite 3) ⟨"Hello".data, none⟩).1
        = false ∧
      (update_claude_md clk0 (FailPoint.failWrite 3) ⟨"Hello".data, none⟩).2.file
        = "Hello".data) :=
  ⟨by decide,
    c2_restore_on_failure clk0 ⟨"Hello".data, none⟩ (FailPoint.failWrite 3)
      (by decide)⟩

/-! ### Claim C3: prepend on files without markers -/

/-- C3: for every file whose content contains neither marker, the update
prepends exactly one freshly generated banner followed by a blank line, and
the original content follows byte-for-byte unchanged. -/
theorem c3_prepend (clk : Clock) (s : List Char)
    (h1 : containsL START_MARKER s = false)
    (h2 : containsL END_MARKER s = false) :
    update_claude_md clk FailPoint.ok ⟨s, none⟩ =
      (true, ⟨create_timestamp_section clk ++ '\n' :: s, none⟩) := by
  unfold update_claude_md updateContent
  simp [h1]

/-- Witness for C3 on the file `"Hello"`. -/
theorem c3_prepend_witness :
    containsL START_MARKER "Hello".data = false ∧
    containsL END_MARKER "Hello".data = false ∧
    update_claude_md clk0 FailPoint.ok ⟨"Hello".data, none⟩ =
      (true, ⟨create_timestamp_section clk0 ++ '\n' :: "Hello".data, none⟩) :=
  ⟨by decide, by decide,
    c3_prepend clk0 "Hello".data (by decide) (by decide)⟩

/-! ### Claim C5: start marker present, end marker missing -/

/-- C5 counterexample: on a file consisting of exactly the start marker and
no end marker, the update reports success and prepends a fresh banner — it
does not raise a caller-visible failure. -/
theorem c5_counterexample :
    (update_claude_md clk0 FailPoint.ok ⟨START_MARKER, none⟩).1 = true ∧
    (update_claude_md clk0 FailPoint.ok ⟨START_MARKER, none⟩).2.file
      = create_timestamp_section clk0 ++ '\n' :: START_MARKER := by
  constructor
  · rfl
  · rfl

/-- C5 amended: when the start marker is present but the end marker is
missing, the update treats the file as having no existing section: it
prepends a freshly generated banner followed by a blank line and reports
success. -/
theorem c5_start_without_end (clk : Clock) (s : List Char)
    (h1 : containsL START_MARKER s = true)
    (h2 : containsL END_MARKER s = false) :
    update_claude_md clk FailPoint.ok ⟨s, none⟩ =
      (true, ⟨create_timestamp_section clk ++ '\n' :: s, none⟩) := by
  unfold update_claude_md updateContent
  simp [h2]

/-- Witness for the amended C5 on the file consisting of the start marker
followed by text. -/
theorem c5_start_without_end_witness :
    containsL START_MARKER (START_MARKER ++ " hi".data) = true ∧
    containsL END_MARKER (START_MARKER ++ " hi".data) = false ∧
    update_claude_md clk0 FailPoint.ok ⟨START_MARKER ++ " hi".data, none⟩ =
      (true, ⟨create_timestamp_section clk0
        ++ '\n' :: (START_MARKER ++ " hi".data), none⟩) :=
  ⟨by decide, by decide,
    c5_start_without_end clk0 (START_MARKER ++ " hi".data) (by decide)
      (by decide)⟩

/-! ### Claim C10: both markers present but end before start -/

/-- C10: on a file that contains both markers but in which every end-marker
occurrence precedes every start-marker occurrence, the update writes the
content back unchanged and reports success. -/
theorem c10_end_before_start (clk : Clock) (d : Disk)
    (h1 : containsL START_MARKER d.file = true)
    (h2 : containsL END_MARKER d.file = true)
    (horder : ∀ p < d.file.length, ∀ q < d.file.length,
      startsWith START_MARKER (d.file.drop p) = true →
      startsWith END_MARKER (d.file.drop q) = true → q < p) :
    update_claude_md clk FailPoint.ok d = (true, ⟨d.file, none⟩) := by
  have hnm : ¬ hasMatch d.file := by
    rintro ⟨a, m, b, habs⟩
    have hsplit1 : d.file = a ++ (START_MARKER ++ (m ++ (END_MARKER ++ b))) := by
      rw [habs]; simp
    have hsplit2 : d.file = (a ++ START_MARKER ++ m) ++ (END_MARKER ++ b) := by
      rw [habs]; simp
    have hS1 : startsWith START_MARKER (d.file.drop a.length) = true := by
      rw [hsplit1, List.drop_left]
      exact startsWith_append_self _ _
    have hE1 : startsWith END_MARKER
        (d.file.drop (a ++ START_MARKER ++ m).length) = true := by
      rw [hsplit2, List.drop_left]
      exact startsWith_append_self _ _
    have hlen := congrArg List.length habs
    simp only [List.length_append] at hlen
    have hSlen : (1:Nat) ≤ START_MARKER.length := by decide
    have hElen : (1:Nat) ≤ END_MARKER.length := by decide
    have hq := horder a.length (by omega)
      (a ++ START_MARKER ++ m).length
      (by simp only [List.length_append]; omega) hS1 hE1
    simp only [List.length_append] at hq
    omega
  have hupd : updateContent clk d.file = d.file := by
    unfold updateContent
    rw [h1, h2]
    simp only [Bool.and_self, if_true]
    exact reSub_eq_self hnm
  show (true, (⟨updateContent clk d.file, none⟩ : Disk)) = (true, ⟨d.file, none⟩)
  rw [hupd]

/-- Witness for C10 on the file `END_MARKER ++ START_MARKER`. -/
theorem c10_end_before_start_witness :
    containsL START_MARKER (END_MARKER ++ START_MARKER) = true ∧
    containsL END_MARKER (END_MARKER ++ START_MARKER) = true ∧
    update_claude_md clk0 FailPoint.ok ⟨END_MARKER ++ START_MARKER, none⟩
      = (true, ⟨END_MARKER ++ START_MARKER, none⟩) :=
  ⟨by decide, by decide,
    c10_end_before_start clk0 ⟨END_MARKER ++ START_MARKER, none⟩ (by decide)
      (by decide) (by decide)⟩

/-! ### Claim C4: idempotence under a fixed clock -/

/-- A match inside `'\n' :: '\n' :: s` forces both markers to occur in `s`
itself, since neither marker starts with a newline. -/
theorem hasMatch_newlines {s : List Char} (h : hasMatch ('\n' :: '\n' :: s)) :
    containsL START_MARKER s = true ∧ containsL END_MARKER s = true := by
  obtain ⟨a, m, b, habs⟩ := h
  obtain ⟨w, hw⟩ : ∃ w, START_MARKER = '<' :: w := ⟨START_MARKER.drop 1, by decide⟩
  cases a with
  | nil =>
    rw [hw] at habs
    simp only [List.nil_append, List.cons_append] at habs
    injection habs with h0 h1
    exact absurd h0 (by decide)
  | cons a0 a' =>
    cases a' with
    | nil =>
      rw [hw] at habs
      simp only [List.cons_append, List.nil_append] at habs
      injection habs with h0 h1
      injection h1 with h2 h3
      exact absurd h2 (by decide)
    | cons a1 a'' =>
      simp only [List.cons_append] at habs
      injection habs with h0 h1
      injection h1 with h2 h3
      constructor
      · exact contains_of_occurs (u := a'') (v := m ++ END_MARKER ++ b)
          (by rw [h3]; simp)
      · exact contains_of_occurs (u := a'' ++ START_MARKER ++ m) (v := b)
          (by rw [h3])

/-- C4: for every file content and a fixed (good) clock reading, running the
update twice in immediate succession yields the same file content after the
second run as after the first. -/
theorem c4_idempotent (clk : Clock) (hg : goodClock clk) (d : Disk) :
    (update_claude_md clk FailPoint.ok
        (update_claude_md clk FailPoint.ok d).2).2.file
      = (update_claude_md clk FailPoint.ok d).2.file := by
  show updateContent clk (updateContent clk d.file) = updateContent clk d.file
  have hreplCore : pyStrip (create_timestamp_section clk) = coreC clk :=
    pyStrip_banner clk
  have hrepl : pyStrip (create_timestamp_section clk)
      = START_MARKER ++ (midE clk ++ END_MARKER) := by
    rw [hreplCore, coreC_decomp]
  have hmid : ∀ c ∈ midE clk, c ≠ '<' := midE_no_lt hg
  cases hcond : (containsL START_MARKER d.file && containsL END_MARKER d.file) with
  | true =>
    have h1 : updateContent clk d.file
        = reSubWith (pyStrip (create_timestamp_section clk)) d.file := by
      unfold updateContent
      rw [hcond]
      simp only [if_true]
    rw [h1]
    rcases reSub_structure (pyStrip (create_timestamp_section clk)) d.file with
      hid | ⟨a, rest, t, ht, hres⟩
    · rw [hid, h1, hid]
    · have hcond2 : (containsL START_MARKER
          (reSubWith (pyStrip (create_timestamp_section clk)) d.file)
          && containsL END_MARKER
          (reSubWith (pyStrip (create_timestamp_section clk)) d.file)) = true := by
        rw [hres, Bool.and_eq_true]
        constructor
        · exact contains_of_occurs (u := a)
            (v := midE clk ++ END_MARKER ++ rest) (by rw [hrepl]; simp)
        · exact contains_of_occurs (u := a ++ START_MARKER ++ midE clk)
            (v := rest) (by rw [hrepl]; simp)
      have h2 : updateContent clk
          (reSubWith (pyStrip (create_timestamp_section clk)) d.file)
          = reSubWith (pyStrip (create_timestamp_section clk))
            (reSubWith (pyStrip (create_timestamp_section clk)) d.file) := by
        unfold updateContent
        rw [hcond2]
        simp only [if_true]
      rw [h2, reSub_idem hrepl hmid]
  | false =>
    have h1 : updateContent clk d.file
        = create_timestamp_section clk ++ '\n' :: d.file := by
      unfold updateContent
      rw [hcond]
      simp only [Bool.false_eq_true, if_false]
    rw [h1]
    have hshape : create_timestamp_section clk ++ '\n' :: d.file
        = '\n' :: (coreC clk ++ ('\n' :: '\n' :: d.file)) := by
      rw [banner_decomp]
      simp
    have hcond2 : (containsL START_MARKER
          (create_timestamp_section clk ++ '\n' :: d.file)
        && containsL END_MARKER
          (create_timestamp_section clk ++ '\n' :: d.file)) = true := by
      rw [hshape, Bool.and_eq_true]
      constructor
      · exact contains_of_occurs (u := ['\n'])
          (v := midE clk ++ END_MARKER ++ ('\n' :: '\n' :: d.file))
          (by rw [coreC_decomp]; simp)
      · exact contains_of_occurs (u := '\n' :: (START_MARKER ++ midE clk))
          (v := '\n' :: '\n' :: d.file)
          (by rw [coreC_decomp]; simp)
    have h2 : updateContent clk (create_timestamp_section clk ++ '\n' :: d.file)
        = reSubWith (pyStrip (create_timestamp_section clk))
          (create_timestamp_section clk ++ '\n' :: d.file) := by
      unfold updateContent
      rw [hcond2]
      simp only [if_true]
    rw [h2, hshape]
    have hnm : ¬ hasMatch ('\n' :: '\n' :: d.file) := by
      intro hmm
      have hboth := hasMatch_newlines hmm
      rw [hboth.1, hboth.2] at hcond
      cases hcond
    have hsw : startsWith START_MARKER
        ('\n' :: (coreC clk ++ ('\n' :: '\n' :: d.file))) = false :=
      startsWith_false_of_head_ne (d := '<') (by decide) (by decide)
    rw [reSubWith_skip _ hsw]
    rw [show coreC clk ++ ('\n' :: '\n' :: d.file)
        = pyStrip (create_timestamp_section clk) ++ ('\n' :: '\n' :: d.file) by
      rw [hreplCore]]
    rw [reSub_repl_self hrepl hmid]
    rw [reSub_eq_self hnm, hreplCore]

/-- Witness for C4 on a concrete file without markers. -/
theorem c4_idempotent_witness :
    goodClock clk0 ∧
    (update_claude_md clk0 FailPoint.ok
        (update_claude_md clk0 FailPoint.ok ⟨"Hello".data, none⟩).2).2.file
      = (update_claude_md clk0 FailPoint.ok ⟨"Hello".data, none⟩).2.file :=
  ⟨by decide, c4_idempotent clk0 (by decide) ⟨"Hello".data, none⟩⟩

/-! ### Claim C1: replacement of delimited regions -/

/-- When the end marker has no occurrence before position `m.length`, the
leftmost occurrence in `m ++ pat ++ t` is exactly at `m.length`. -/
theorem splitFirst_no_early {pat m t : List Char} (hne : pat ≠ [])
    (h : ∀ p' < m.length, startsWith pat ((m ++ pat ++ t).drop p') = false) :
    splitFirst pat (m ++ pat ++ t) = some (m, t) := by
  induction m with
  | nil =>
    simp only [List.nil_append]
    exact splitFirst_at_head hne
  | cons d m' ih =>
    have hcons : ((d :: m' : List Char) ++ pat ++ t) = d :: (m' ++ pat ++ t) := by
      simp
    have h0 : startsWith pat (d :: (m' ++ pat ++ t)) = false := by
      have h0' := h 0 (by simp only [List.length_cons]; omega)
      rw [hcons] at h0'
      simpa using h0'
    have hshift : ∀ p' < m'.length,
        startsWith pat ((m' ++ pat ++ t).drop p') = false := by
      intro p' hb
      have hsh := h (p' + 1) (by simp only [List.length_cons]; omega)
      rw [hcons, List.drop_succ_cons] at hsh
      exact hsh
    rw [hcons, splitFirst_cons_neg h0, ih hshift]
    rfl

/-- When the start marker occurs exactly once in the content and the end
marker exactly once (after it), the global substitution replaces exactly
that delimited region and leaves everything outside it unchanged. -/
theorem reSub_unique (repl : List Char) :
    ∀ a m b s, s = a ++ START_MARKER ++ m ++ END_MARKER ++ b →
      (∀ p < s.length, startsWith START_MARKER (s.drop p) = true
        → p = a.length) →
      (∀ q < s.length, startsWith END_MARKER (s.drop q) = true
        → q = a.length + START_MARKER.length + m.length) →
      reSubWith repl s = a ++ repl ++ b := by
  intro a
  induction a with
  | nil =>
    intro m b s hs hp hq
    subst hs
    simp only [List.nil_append] at hp hq ⊢
    have hassoc : (START_MARKER ++ m ++ END_MARKER ++ b : List Char)
        = START_MARKER ++ (m ++ END_MARKER ++ b) := by simp
    have hS : startsWith START_MARKER (START_MARKER ++ m ++ END_MARKER ++ b)
        = true := by
      rw [hassoc]
      exact startsWith_append_self _ _
    have hdrop : (START_MARKER ++ m ++ END_MARKER ++ b).drop START_MARKER.length
        = m ++ END_MARKER ++ b := by
      rw [hassoc, List.drop_left]
    have hnoearly : ∀ p' < m.length,
        startsWith END_MARKER ((m ++ END_MARKER ++ b).drop p') = false := by
      intro p' hp'
      cases hx : startsWith END_MARKER ((m ++ END_MARKER ++ b).drop p') with
      | false => rfl
      | true =>
        exfalso
        have hdd : (START_MARKER ++ m ++ END_MARKER ++ b).drop
            (START_MARKER.length + p') = (m ++ END_MARKER ++ b).drop p' := by
          rw [hassoc, List.drop_append_eq_append_drop,
            List.drop_eq_nil_of_le (by omega), List.nil_append]
          congr 1
          omega
        have hbound : START_MARKER.length + p' <
            (START_MARKER ++ m ++ END_MARKER ++ b).length := by
          simp only [List.length_append]
          have hE : (1:Nat) ≤ END_MARKER.length := by decide
          omega
        have hqq := hq (START_MARKER.length + p') hbound (by rw [hdd]; exact hx)
        simp only [List.length_nil] at hqq
        omega
    have hsp : splitFirst END_MARKER
        ((START_MARKER ++ m ++ END_MARKER ++ b).drop START_MARKER.length)
        = some (m, b) := by
      rw [hdrop]
      exact splitFirst_no_early (by decide) hnoearly
    rw [reSubWith_match repl hS hsp]
    have hnm : ¬ hasMatch b := by
      rintro ⟨u, mm, bb, hb⟩
      have hre : (START_MARKER ++ m ++ END_MARKER ++ b : List Char)
          = (START_MARKER ++ m ++ END_MARKER ++ u)
            ++ (START_MARKER ++ (mm ++ END_MARKER ++ bb)) := by
        rw [hb]
        simp
      have hpos : startsWith START_MARKER
          ((START_MARKER ++ m ++ END_MARKER ++ b).drop
            (START_MARKER ++ m ++ END_MARKER ++ u).length) = true := by
        rw [hre, List.drop_left]
        exact startsWith_append_self _ _
      have hboundp : (START_MARKER ++ m ++ END_MARKER ++ u).length
          < (START_MARKER ++ m ++ END_MARKER ++ b).length := by
        rw [hb]
        simp only [List.length_append]
        have hS1 : (1:Nat) ≤ START_MARKER.length := by decide
        omega
      have h0 := hp _ hboundp hpos
      simp only [List.length_append, List.length_nil] at h0
      have hS1 : (1:Nat) ≤ START_MARKER.length := by decide
      omega
    rw [reSub_eq_self hnm]
  | cons c a' ih =>
    intro m b s hs hp hq
    have hrest : s = c :: (a' ++ START_MARKER ++ m ++ END_MARKER ++ b) := by
      rw [hs]
      simp
    have hnS : startsWith START_MARKER s = false := by
      cases hx : startsWith START_MARKER s with
      | false => rfl
      | true =>
        exfalso
        have hb0 : 0 < s.length := by rw [hrest]; simp
        have h0 := hp 0 hb0 (by rw [List.drop_zero]; exact hx)
        simp only [List.length_cons] at h0
        omega
    have hp' : ∀ p < (a' ++ START_MARKER ++ m ++ END_MARKER ++ b).length,
        startsWith START_MARKER
          ((a' ++ START_MARKER ++ m ++ END_MARKER ++ b).drop p) = true
        → p = a'.length := by
      intro p hb hx
      have h1 := hp (p + 1)
        (by rw [hrest]; simp only [List.length_cons]; omega)
        (by rw [hrest, List.drop_succ_cons]; exact hx)
      simp only [List.length_cons] at h1
      omega
    have hq' : ∀ q < (a' ++ START_MARKER ++ m ++ END_MARKER ++ b).length,
        startsWith END_MARKER
          ((a' ++ START_MARKER ++ m ++ END_MARKER ++ b).drop q) = true
        → q = a'.length + START_MARKER.length + m.length := by
      intro q hb hx
      have h1 := hq (q + 1)
        (by rw [hrest]; simp only [List.length_cons]; omega)
        (by rw [hrest, List.drop_succ_cons]; exact hx)
      simp only [List.length_cons] at h1
      omega
    have hres := ih m b (a' ++ START_MARKER ++ m ++ END_MARKER ++ b) rfl hp' hq'
    rw [hrest] at hnS ⊢
    rw [reSubWith_skip repl hnS, hres]
    simp

set_option maxRecDepth 100000 in
/-- C1 counterexample: on a file holding two marker pairs separated by an
`x`, the update does not leave the content after the first delimited region
unchanged — the second pair is replaced as well. -/
theorem c1_counterexample :
    updateContent clk0
        (START_MARKER ++ END_MARKER ++ ('x' :: (START_MARKER ++ END_MARKER)))
      ≠ pyStrip (create_timestamp_section clk0)
          ++ ('x' :: (START_MARKER ++ END_MARKER)) := by
  have hcond : (containsL START_MARKER
        (START_MARKER ++ END_MARKER ++ ('x' :: (START_MARKER ++ END_MARKER)))
      && containsL END_MARKER
        (START_MARKER ++ END_MARKER ++ ('x' :: (START_MARKER ++ END_MARKER))))
      = true := by decide
  have h1 : updateContent clk0
      (START_MARKER ++ END_MARKER ++ ('x' :: (START_MARKER ++ END_MARKER)))
      = reSubWith (pyStrip (create_timestamp_section clk0))
        (START_MARKER ++ END_MARKER ++ ('x' :: (START_MARKER ++ END_MARKER))) := by
    unfold updateContent
    rw [hcond]
    simp only [if_true]
  rw [h1]
  have hsA : splitFirst END_MARKER
      ((START_MARKER ++ END_MARKER
        ++ ('x' :: (START_MARKER ++ END_MARKER))).drop START_MARKER.length)
      = some ([], 'x' :: (START_MARKER ++ END_MARKER)) := by decide
  rw [reSubWith_match (pyStrip (create_timestamp_section clk0)) (by decide) hsA]
  have hsk : startsWith START_MARKER ('x' :: (START_MARKER ++ END_MARKER))
      = false := by decide
  rw [reSubWith_skip (pyStrip (create_timestamp_section clk0)) hsk]
  have hsB : splitFirst END_MARKER
      ((START_MARKER ++ END_MARKER).drop START_MARKER.length)
      = some ([], []) := by decide
  rw [reSubWith_match (pyStrip (create_timestamp_section clk0)) (by decide) hsB]
  rw [reSubWith_nil, List.append_nil]
  intro heq
  have h2 := List.append_cancel_left heq
  injection h2 with h3 h4
  exact absurd h4 (by decide)

/-- C1 amended: `re.sub` replaces every delimited region, not only the
first; in particular, on a file where the start marker occurs exactly once
and the end marker exactly once after it, the update replaces exactly that
region with the stripped fresh banner and all content outside the region is
byte-for-byte identical before and after. -/
theorem c1_single_pair (clk : Clock) (a m b : List Char)
    (hp : ∀ p < (a ++ START_MARKER ++ m ++ END_MARKER ++ b).length,
      startsWith START_MARKER
        ((a ++ START_MARKER ++ m ++ END_MARKER ++ b).drop p) = true
      → p = a.length)
    (hq : ∀ q < (a ++ START_MARKER ++ m ++ END_MARKER ++ b).length,
      startsWith END_MARKER
        ((a ++ START_MARKER ++ m ++ END_MARKER ++ b).drop q) = true
      → q = a.length + START_MARKER.length + m.length) :
    update_claude_md clk FailPoint.ok
        ⟨a ++ START_MARKER ++ m ++ END_MARKER ++ b, none⟩
      = (true, ⟨a ++ pyStrip (create_timestamp_section clk) ++ b, none⟩) := by
  have hcontS : containsL START_MARKER
      (a ++ START_MARKER ++ m ++ END_MARKER ++ b) = true :=
    contains_of_occurs (u := a) (v := m ++ END_MARKER ++ b) (by simp)
  have hcontE : containsL END_MARKER
      (a ++ START_MARKER ++ m ++ END_MARKER ++ b) = true :=
    contains_of_occurs (u := a ++ START_MARKER ++ m) (v := b) rfl
  show (true, (⟨updateContent clk (a ++ START_MARKER ++ m ++ END_MARKER ++ b),
      none⟩ : Disk)) = _
  have hupd : updateContent clk (a ++ START_MARKER ++ m ++ END_MARKER ++ b)
      = a ++ pyStrip (create_timestamp_section clk) ++ b := by
    unfold updateContent
    rw [hcontS, hcontE]
    simp only [Bool.and_self, if_true]
    exact reSub_unique _ a m b _ rfl hp hq
  rw [hupd]

/-- Witness for the amended C1 on a concrete single-pair file. -/
theorem c1_single_pair_witness :
    (∀ p < ("ab".data ++ START_MARKER ++ "m".data ++ END_MARKER
        ++ "yz".data).length,
      startsWith START_MARKER (("ab".data ++ START_MARKER ++ "m".data
        ++ END_MARKER ++ "yz".data).drop p) = true → p = "ab".data.length) ∧
    update_claude_md clk0 FailPoint.ok
        ⟨"ab".data ++ START_MARKER ++ "m".data ++ END_MARKER ++ "yz".data, none⟩
      = (true, ⟨"ab".data ++ pyStrip (create_timestamp_section clk0)
          ++ "yz".data, none⟩) :=
  ⟨by decide,
    c1_single_pair clk0 "ab".data "m".data "yz".data (by decide) (by decide)⟩

/-! ### Claim C7: the locator -/

/-- C7: the locator returns exactly the files, at any depth below the root,
whose name is `CLAUDE.md` or `claude.md`, excluding every path whose string
form contains `.backup` or `.trash`. -/
theorem c7_locator (files : List FsPath) (p : FsPath) :
    p ∈ find_all_claude_md_files files ↔
      p ∈ files ∧
      (p.getLast? = some "CLAUDE.md".data ∨ p.getLast? = some "claude.md".data) ∧
      containsL ".backup".data (pathStr p) = false ∧
      containsL ".trash".data (pathStr p) = false := by
  unfold find_all_claude_md_files rglobFiles
  simp only [List.mem_append, List.mem_filter, decide_eq_true_eq,
    Bool.and_eq_true, Bool.not_eq_true']
  constructor
  · rintro (⟨⟨hf, hn⟩, hb, ht⟩ | ⟨⟨hf, hn⟩, hb, ht⟩)
    · exact ⟨hf, Or.inl hn, hb, ht⟩
    · exact ⟨hf, Or.inr hn, hb, ht⟩
  · rintro ⟨hf, hn | hn, hb, ht⟩
    · exact Or.inl ⟨⟨hf, hn⟩, hb, ht⟩
    · exact Or.inr ⟨⟨hf, hn⟩, hb, ht⟩

/-! ### Claim C8: exit codes of the entry point -/

/-- C8 counterexample: in directory mode with one found file whose update
fails, the exit status is 0, although neither "all found files processed
successfully" nor "zero files were found" holds, so the claimed
biconditional for exit status 0 is false. -/
theorem c8_counterexample :
    ¬ ((main none [["CLAUDE.md".data]] (fun _ => false) = 0) ↔
      ((∀ p ∈ find_all_claude_md_files [["CLAUDE.md".data]],
          (fun _ : FsPath => false) p = true) ∨
        find_all_claude_md_files [["CLAUDE.md".data]] = [])) := by
  decide

/-- C8 amended: exit status 1 occurs exactly for a single named file that
does not exist or whose update failed; in directory mode the exit status is
0 regardless of per-file outcomes (including when zero files are found),
and a single named file that exists and updates successfully exits 0. -/
theorem c8_exit_codes (files : List FsPath) (updOk : FsPath → Bool) :
    (main none files updOk = 0) ∧
    (∀ p, main (some (p, false)) files updOk = 1) ∧
    (∀ p, updOk p = true → main (some (p, true)) files updOk = 0) ∧
    (∀ p, updOk p = false → main (some (p, true)) files updOk = 1) := by
  refine ⟨?_, ?_, ?_, ?_⟩
  · unfold main
    rw [ite_self]
  · intro p
    rfl
  · intro p h
    unfold main
    simp [h]
  · intro p h
    unfold main
    simp [h]

/-- Witness for the amended C8: a successful single-file run exits 0. -/
theorem c8_exit_codes_witness :
    ((fun _ : FsPath => true) ["CLAUDE.md".data] = true) ∧
    main (some (["CLAUDE.md".data], true)) [] (fun _ => true) = 0 :=
  ⟨rfl, (c8_exit_codes [] (fun _ => true)).2.2.1 ["CLAUDE.md".data] rfl⟩

/-! ### Claim C9: determinism and file-independence of the banner -/

/-- C9: the banner generator is deterministic given a fixed clock reading
and produces the same text regardless of which target file it is inserted
into: updating any two marker-free files with the same clock prepends the
same banner, which is a function of the clock only. -/
theorem c9_banner_independent (clk : Clock) (s t : List Char)
    (hs : (containsL START_MARKER s && containsL END_MARKER s) = false)
    (ht : (containsL START_MARKER t && containsL END_MARKER t) = false) :
    ∃ banner, banner = create_timestamp_section clk ∧
      updateContent clk s = banner ++ '\n' :: s ∧
      updateContent clk t = banner ++ '\n' :: t := by
  refine ⟨create_timestamp_section clk, rfl, ?_, ?_⟩
  · unfold updateContent
    rw [hs]
    simp only [Bool.false_eq_true, if_false]
  · unfold updateContent
    rw [ht]
    simp only [Bool.false_eq_true, if_false]

/-- Witness for C9 on two distinct concrete files. -/
theorem c9_banner_independent_witness :
    (containsL START_MARKER "a".data && containsL END_MARKER "a".data) = false ∧
    ∃ banner, banner = create_timestamp_section clk0 ∧
      updateContent clk0 "a".data = banner ++ '\n' :: "a".data ∧
      updateContent clk0 "bb".data = banner ++ '\n' :: "bb".data :=
  ⟨by decide,
    c9_banner_independent clk0 "a".data "bb".data (by decide) (by decide)⟩

/-! ### Claim C6: years inside the banner region -/

/-- The banner-body lines that do not mention the previous year in the
source text (the remaining four lines are the NOT-callout, enforcement
rules 3 and 4, and the violation alert). -/
def plainLines (clk : Clock) : List (List Char) :=
  [ [],
    "# 🚨 CRITICAL TEMPORAL AWARENESS UPDATE 🚨".data,
    "## MANDATORY DATE/TIME RECOGNITION - READ THIS FIRST!".data,
    "**CURRENT ACTUAL DATE AND TIME:**".data,
    lineToday clk, lineDate clk, lineTime clk, lineYear clk,
    "### ENFORCEMENT PROTOCOL:".data, lineUse clk, lineWebSearch clk,
    "### Examples of CORRECT date usage:".data, lineDocs clk, lineRecent clk,
    lineCurrent clk, "### VIOLATION ALERT:".data, lineLastUpdated clk ]

theorem region_lines_cover (clk : Clock) :
    ∀ l ∈ [] :: (bodyLines clk ++ [[]]),
      l = lineNot clk ∨ l = lineDefault clk ∨ l = lineWrong clk ∨
      l = lineViolation clk ∨ l ∈ plainLines clk := by
  intro l hl
  simp only [bodyLines, plainLines, List.mem_cons, List.mem_append,
    List.not_mem_nil, or_false, List.mem_singleton] at hl ⊢
  tauto

theorem bodyLines_ne_nil (clk : Clock) : bodyLines clk ≠ [] := by
  unfold bodyLines
  exact List.cons_ne_nil _ _

theorem regionOf_eq {l pre rest mid post : List Char}
    (h1 : splitFirst START_MARKER l = some (pre, rest))
    (h2 : splitFirst END_MARKER rest = some (mid, post)) :
    regionOf l = some mid := by
  unfold regionOf
  rw [h1]
  simp only [h2]

/-- The first delimited region of the banner (with anything appended after
the banner) is exactly the banner's middle part. -/
theorem regionOf_banner_append (clk : Clock) (hg : goodClock clk)
    (tail : List Char) :
    regionOf (create_timestamp_section clk ++ tail) = some (midE clk) := by
  have hshape : create_timestamp_section clk ++ tail
      = '\n' :: (START_MARKER ++ (midE clk ++ (END_MARKER ++ ('\n' :: tail)))) := by
    rw [banner_decomp, coreC_decomp]
    simp
  have hsw : startsWith START_MARKER
      ('\n' :: (START_MARKER ++ (midE clk ++ (END_MARKER ++ ('\n' :: tail)))))
      = false :=
    startsWith_false_of_head_ne (d := '<') (by decide) (by decide)
  have h1 : splitFirst START_MARKER (create_timestamp_section clk ++ tail)
      = some (['\n'], midE clk ++ (END_MARKER ++ ('\n' :: tail))) := by
    rw [hshape, splitFirst_cons_neg hsw, splitFirst_at_head (by decide)]
    rfl
  have h2 : splitFirst END_MARKER (midE clk ++ (END_MARKER ++ ('\n' :: tail)))
      = some (midE clk, '\n' :: tail) := by
    rw [show (midE clk ++ (END_MARKER ++ ('\n' :: tail)) : List Char)
      = midE clk ++ END_MARKER ++ ('\n' :: tail) by simp]
    exact splitFirst_clean_append (by decide) (midE_no_lt hg)
  exact regionOf_eq h1 h2

/-- The lines of the banner region are the empty first line, the body
lines, and the empty last line. -/
theorem splitNl_midE (clk : Clock) (hg : goodClock clk) :
    splitNl (midE clk) = [] :: (bodyLines clk ++ [[]]) := by
  unfold midE
  rw [show (joinNl (bodyLines clk) ++ ['\n'] : List Char)
    = joinNl (bodyLines clk ++ [[]]) by
      rw [joinNl_append_single (bodyLines_ne_nil clk)]]
  rw [splitNl_newline_cons]
  rw [splitNl_joinNl (by simp [bodyLines_ne_nil clk])]
  intro l hl
  rcases List.mem_append.mp hl with h | h
  · exact (bodyLines_clean hg l h).2
  · rw [List.mem_singleton.mp h]
    simp

/-- The region always mentions the current year. -/
theorem midE_contains_year (clk : Clock) :
    containsL (yearStr clk) (midE clk) = true := by
  obtain ⟨u, v, huv⟩ := joinNl_infix (l := lineYear clk) (L := bodyLines clk)
    (by simp [bodyLines])
  apply contains_of_occurs
    (u := '\n' :: (u ++ "- **THE YEAR IS: ".data))
    (v := "**".data ++ v ++ ['\n'])
  unfold midE
  rw [huv]
  unfold lineYear
  simp

/-- C6 amended: the region between the markers of the freshly generated
banner is the banner's middle part; it contains the current year, and the
previous year's number occurs only in the four fixed warning lines (the
NOT-callout, enforcement rules 3 and 4, and the violation alert), provided
the clock's rendered fields do not smuggle the previous year into the other
lines. -/
theorem c6_region_years (clk : Clock) (hg : goodClock clk)
    (hleak : ∀ l ∈ plainLines clk, containsL (prevYearStr clk) l = false) :
    regionOf (create_timestamp_section clk) = some (midE clk) ∧
    containsL (yearStr clk) (midE clk) = true ∧
    ∀ line ∈ splitNl (midE clk), containsL (prevYearStr clk) line = true →
      line = lineNot clk ∨ line = lineDefault clk ∨ line = lineWrong clk ∨
      line = lineViolation clk := by
  refine ⟨?_, midE_contains_year clk, ?_⟩
  · have h := regionOf_banner_append clk hg []
    rwa [List.append_nil] at h
  · intro line hline hcont
    rw [splitNl_midE clk hg] at hline
    rcases region_lines_cover clk line hline with h | h | h | h | h
    · exact Or.inl h
    · exact Or.inr (Or.inl h)
    · exact Or.inr (Or.inr (Or.inl h))
    · exact Or.inr (Or.inr (Or.inr h))
    · rw [hleak line h] at hcont
      cases hcont

/-- Witness for the amended C6 at a concrete clock. -/
theorem c6_region_years_witness :
    goodClock clk0 ∧
    (regionOf (create_timestamp_section clk0) = some (midE clk0) ∧
      containsL (yearStr clk0) (midE clk0) = true ∧
      ∀ line ∈ splitNl (midE clk0), containsL (prevYearStr clk0) line = true →
        line = lineNot clk0 ∨ line = lineDefault clk0 ∨ line = lineWrong clk0 ∨
        line = lineViolation clk0) :=
  ⟨by decide, c6_region_years clk0 (by decide) (by decide)⟩

/-- C6 counterexample: after updating the empty file at a concrete clock,
the region between the markers contains the previous year's number on a
line that is not the "IT IS NOT" callout line — the enforcement rule
"NEVER default to 2025". -/
theorem c6_counterexample :
    ¬ (containsL (yearStr clk0) ((regionOf (updateContent clk0 [])).getD [])
        = true ∧
      ∀ line ∈ splitNl ((regionOf (updateContent clk0 [])).getD []),
        containsL (prevYearStr clk0) line = true →
        containsL "IT IS NOT".data line = true) := by
  rintro ⟨hyear, hlines⟩
  have hupd : updateContent clk0 [] = create_timestamp_section clk0 ++ ['\n'] := by
    unfold updateContent
    rw [show containsL START_MARKER ([] : List Char) = false by decide]
    simp only [Bool.false_and, Bool.false_eq_true, if_false]
  have hreg : regionOf (updateContent clk0 []) = some (midE clk0) := by
    rw [hupd]
    exact regionOf_banner_append clk0 (by decide) ['\n']
  rw [hreg] at hlines
  simp only [Option.getD_some] at hlines
  have hmem : lineDefault clk0 ∈ splitNl (midE clk0) := by
    rw [splitNl_midE clk0 (by decide)]
    simp [bodyLines]
  have hres := hlines (lineDefault clk0) hmem (by decide)
  exact absurd hres (by decide)

end ClaudeUpdater
